import Mathlib

/-!
Verification development for the `risc_git_auto_pushes_commit` tool.

The tool enumerates changed files in a git working tree, classifies each
path into one of six categories, asks a remote completion service for a
structured commit-message analysis per category, resolves undetermined
fields interactively, and then stages, commits and optionally pushes.

The development below is a shallow embedding of the script:
pure helpers (`classify_files`, `extract_json_from_markdown`, message
assembly) become Lean functions; the interactive/stateful orchestration
(`process_category`, `main`) becomes a pure function from an environment
of oracle inputs (diff text, analysis result, console answers) to a
trace of observable effects together with a model git state.

Python string primitives (`endswith`, `startswith`, `lower`, `strip`,
`in`, `split`, `join`) are modelled by executable functions on character
lists so that every definition evaluates inside the kernel.
-/

/-! ### Python string primitives -/

/-- Boolean prefix test on character lists. -/
def prefixOfB : List Char → List Char → Bool
  | [], _ => true
  | _ :: _, [] => false
  | a :: as, b :: bs => a == b && prefixOfB as bs

/-- Boolean substring test on character lists: `sub` occurs somewhere in the list. -/
def infixOfB (sub : List Char) : List Char → Bool
  | [] => prefixOfB sub []
  | c :: rest => prefixOfB sub (c :: rest) || infixOfB sub rest

/-- Python `s.endswith(suffix)`. -/
def pyEndsWith (s suffix : String) : Bool :=
  prefixOfB suffix.toList.reverse s.toList.reverse

/-- Python `s.startswith(pre)`. -/
def pyStartsWith (s pre : String) : Bool := prefixOfB pre.toList s.toList

/-- Python `sub in s` substring containment for strings. -/
def pyIn (sub s : String) : Bool := infixOfB sub.toList s.toList

/-- ASCII lower-casing of one character, as Python `str.lower` acts on ASCII paths. -/
def lowerChar (c : Char) : Char :=
  if 'A' ≤ c ∧ c ≤ 'Z' then Char.ofNat (c.toNat + 32) else c

/-- Python `s.lower()` (ASCII fragment). -/
def pyLower (s : String) : String := String.mk (s.toList.map lowerChar)

/-- Python whitespace class used by `str.strip`. -/
def isPyWs (c : Char) : Bool :=
  c == ' ' || c == '\t' || c == '\n' || c == '\r' || c == '\x0b' || c == '\x0c'

/-- Python `s.strip()`. -/
def pyStrip (s : String) : String :=
  String.mk (((s.toList.dropWhile isPyWs).reverse.dropWhile isPyWs).reverse)

/-- Python `s.split(",")` on character lists; `acc` holds the current chunk reversed. -/
def pySplitCommaAux : List Char → List Char → List String
  | [], acc => [String.mk acc.reverse]
  | c :: rest, acc =>
    if c == ',' then String.mk acc.reverse :: pySplitCommaAux rest []
    else pySplitCommaAux rest (c :: acc)

/-- Python `s.split(",")`. -/
def pySplitComma (s : String) : List String := pySplitCommaAux s.toList []

/-- Python `"\n".join(parts)`. -/
def pyJoinNl : List String → String
  | [] => ""
  | [d] => d
  | d :: rest => d ++ "\n" ++ pyJoinNl rest

/-! ### Classifier

`classify_files` is the embedding of `GitCommitAPI.classify_files`
(source lines 130-146): one pass over the file list, an `elif` chain per
file, appending the file to the bucket of the first matching rule.

`classify` is the specification-level pure function `classify(path) ->
Category` from the spec's section 4.2, written rule by rule as the spec
states them (first match wins). -/

/-- The six classification buckets. -/
inductive Category where
  | dts
  | config
  | drivers
  | script
  | patch
  | other
deriving DecidableEq

/-- Specification-level classifier: ordered rules, first match wins
(spec section 4.2). -/
def classify (f : String) : Category :=
  if pyEndsWith f ".dts" || pyEndsWith f ".dtsi" then .dts
  else if pyIn "config" (pyLower f) || pyIn "kconfig" (pyLower f) then .config
  else if pyStartsWith f "drivers/" || pyEndsWith f ".c" || pyEndsWith f ".h" then .drivers
  else if pyEndsWith f ".sh" || pyEndsWith f ".py" || pyEndsWith f ".pl"
      || pyIn "build" (pyLower f) || pyIn "script" (pyLower f) then .script
  else if pyEndsWith f ".patch" then .patch
  else .other

/-- Embedding of `GitCommitAPI.classify_files`: the `for`/`elif` chain of the
source, returning the six buckets `(dts, config, drivers, script, patch, other)`. -/
def classify_files : List String →
    List String × List String × List String × List String × List String × List String
  | [] => ([], [], [], [], [], [])
  | f :: rest =>
    if pyEndsWith f ".dts" || pyEndsWith f ".dtsi" then
      (f :: (classify_files rest).1, (classify_files rest).2.1, (classify_files rest).2.2.1,
       (classify_files rest).2.2.2.1, (classify_files rest).2.2.2.2.1, (classify_files rest).2.2.2.2.2)
    else if pyIn "config" (pyLower f) || pyIn "kconfig" (pyLower f) then
      ((classify_files rest).1, f :: (classify_files rest).2.1, (classify_files rest).2.2.1,
       (classify_files rest).2.2.2.1, (classify_files rest).2.2.2.2.1, (classify_files rest).2.2.2.2.2)
    else if pyStartsWith f "drivers/" || pyEndsWith f ".c" || pyEndsWith f ".h" then
      ((classify_files rest).1, (classify_files rest).2.1, f :: (classify_files rest).2.2.1,
       (classify_files rest).2.2.2.1, (classify_files rest).2.2.2.2.1, (classify_files rest).2.2.2.2.2)
    else if pyEndsWith f ".sh" || pyEndsWith f ".py" || pyEndsWith f ".pl"
        || pyIn "build" (pyLower f) || pyIn "script" (pyLower f) then
      ((classify_files rest).1, (classify_files rest).2.1, (classify_files rest).2.2.1,
       f :: (classify_files rest).2.2.2.1, (classify_files rest).2.2.2.2.1, (classify_files rest).2.2.2.2.2)
    else if pyEndsWith f ".patch" then
      ((classify_files rest).1, (classify_files rest).2.1, (classify_files rest).2.2.1,
       (classify_files rest).2.2.2.1, f :: (classify_files rest).2.2.2.2.1, (classify_files rest).2.2.2.2.2)
    else
      ((classify_files rest).1, (classify_files rest).2.1, (classify_files rest).2.2.1,
       (classify_files rest).2.2.2.1, (classify_files rest).2.2.2.2.1, f :: (classify_files rest).2.2.2.2.2)

/-- Insertion of a file into the bucket named by its category. -/
def addBucket (c : Category) (f : String)
    (r : List String × List String × List String × List String × List String × List String) :
    List String × List String × List String × List String × List String × List String :=
  match c with
  | .dts => (f :: r.1, r.2.1, r.2.2.1, r.2.2.2.1, r.2.2.2.2.1, r.2.2.2.2.2)
  | .config => (r.1, f :: r.2.1, r.2.2.1, r.2.2.2.1, r.2.2.2.2.1, r.2.2.2.2.2)
  | .drivers => (r.1, r.2.1, f :: r.2.2.1, r.2.2.2.1, r.2.2.2.2.1, r.2.2.2.2.2)
  | .script => (r.1, r.2.1, r.2.2.1, f :: r.2.2.2.1, r.2.2.2.2.1, r.2.2.2.2.2)
  | .patch => (r.1, r.2.1, r.2.2.1, r.2.2.2.1, f :: r.2.2.2.2.1, r.2.2.2.2.2)
  | .other => (r.1, r.2.1, r.2.2.1, r.2.2.2.1, r.2.2.2.2.1, f :: r.2.2.2.2.2)

lemma classify_files_cons (f : String) (rest : List String) :
    classify_files (f :: rest) = addBucket (classify f) f (classify_files rest) := by
  simp only [classify_files, classify]
  by_cases h1 : (pyEndsWith f ".dts" || pyEndsWith f ".dtsi") = true
  · simp only [if_pos h1, addBucket]
  · simp only [if_neg h1]
    by_cases h2 : (pyIn "config" (pyLower f) || pyIn "kconfig" (pyLower f)) = true
    · simp only [if_pos h2, addBucket]
    · simp only [if_neg h2]
      by_cases h3 : (pyStartsWith f "drivers/" || pyEndsWith f ".c" || pyEndsWith f ".h") = true
      · simp only [if_pos h3, addBucket]
      · simp only [if_neg h3]
        by_cases h4 : (pyEndsWith f ".sh" || pyEndsWith f ".py" || pyEndsWith f ".pl"
            || pyIn "build" (pyLower f) || pyIn "script" (pyLower f)) = true
        · simp only [if_pos h4, addBucket]
        · simp only [if_neg h4]
          by_cases h5 : pyEndsWith f ".patch" = true
          · simp only [if_pos h5, addBucket]
          · simp only [if_neg h5, addBucket]

/-- C1: every path is assigned to exactly one category by the first matching
rule in the stated order: the six buckets produced by the source's
`classify_files` are exactly the files whose spec-level `classify` value is the
corresponding category, and in particular any path ending in `.dts` or `.dtsi`
is classified `dts` regardless of any other substrings it contains. -/
theorem classify_rule_order :
    (∀ files, classify_files files =
      (files.filter (fun f => decide (classify f = Category.dts)),
       files.filter (fun f => decide (classify f = Category.config)),
       files.filter (fun f => decide (classify f = Category.drivers)),
       files.filter (fun f => decide (classify f = Category.script)),
       files.filter (fun f => decide (classify f = Category.patch)),
       files.filter (fun f => decide (classify f = Category.other))))
    ∧ ∀ f, (pyEndsWith f ".dts" = true ∨ pyEndsWith f ".dtsi" = true) →
        classify f = Category.dts := by
  constructor
  · intro files
    induction files with
    | nil => rfl
    | cons f rest ih =>
      rw [classify_files_cons, ih]
      cases hc : classify f <;> simp [addBucket, List.filter_cons, hc]
  · intro f h
    rcases h with h | h <;> simp [classify, h]

/-- Witness for C1 at the spec's own example: `dts_config.dts` contains the
substring `config` yet classifies as `dts` by rule precedence. -/
theorem classify_rule_order_witness :
    classify "dts_config.dts" = Category.dts ∧
      classify_files ["dts_config.dts"] = (["dts_config.dts"], [], [], [], [], []) :=
  ⟨classify_rule_order.2 "dts_config.dts" (Or.inl (by decide)),
   (classify_rule_order.1 ["dts_config.dts"]).trans (by decide)⟩

/-! ### JSON values and a strict JSON parser

`extract_json_from_markdown` (source lines 24-35) slices the response
content from the first `\x7b` to the last `\x7d` and feeds the slice to
`json.loads`, returning `None` when no brace is found or when parsing
raises. `json_loads` below models Python's strict JSON parser: a
recursive-descent parser over the character list, fuelled by the input
length, that succeeds only when the whole string is one JSON value
surrounded by whitespace. -/

/-- JSON values; numbers keep their lexeme. -/
inductive JValue where
  | null
  | bool (b : Bool)
  | num (lexeme : String)
  | str (s : String)
  | arr (xs : List JValue)
  | obj (fields : List (String × JValue))

/-- JSON whitespace. -/
def isJsonWs (c : Char) : Bool := c == ' ' || c == '\t' || c == '\n' || c == '\r'

/-- Skip JSON whitespace. -/
def skipWs : List Char → List Char
  | [] => []
  | c :: cs => if isJsonWs c then skipWs cs else c :: cs

/-- Value of one hexadecimal digit. -/
def hexVal (c : Char) : Option Nat :=
  if '0' ≤ c ∧ c ≤ '9' then some (c.toNat - '0'.toNat)
  else if 'a' ≤ c ∧ c ≤ 'f' then some (c.toNat - 'a'.toNat + 10)
  else if 'A' ≤ c ∧ c ≤ 'F' then some (c.toNat - 'A'.toNat + 10)
  else none

/-- Parse the body of a JSON string after the opening quote, handling escapes;
returns the decoded characters and the remainder after the closing quote. -/
def parseStringBody : Nat → List Char → Option (List Char × List Char)
  | 0, _ => none
  | _, [] => none
  | fuel+1, c :: rest =>
    if c == '"' then some ([], rest)
    else if c == '\\' then
      match rest with
      | [] => none
      | e :: rest2 =>
        let esc : Option (Char × List Char) :=
          if e == '"' then some ('"', rest2)
          else if e == '\\' then some ('\\', rest2)
          else if e == '/' then some ('/', rest2)
          else if e == 'b' then some ('\x08', rest2)
          else if e == 'f' then some ('\x0c', rest2)
          else if e == 'n' then some ('\n', rest2)
          else if e == 'r' then some ('\r', rest2)
          else if e == 't' then some ('\t', rest2)
          else if e == 'u' then
            match rest2 with
            | h1 :: h2 :: h3 :: h4 :: rest3 =>
              match hexVal h1, hexVal h2, hexVal h3, hexVal h4 with
              | some a, some b, some c3, some d =>
                some (Char.ofNat (((a * 16 + b) * 16 + c3) * 16 + d), rest3)
              | _, _, _, _ => none
            | _ => none
          else none
        match esc with
        | none => none
        | some (ch, r) => (parseStringBody fuel r).map (fun p => (ch :: p.1, p.2))
    else if c.toNat < 32 then none
    else (parseStringBody fuel rest).map (fun p => (c :: p.1, p.2))

/-- Longest digit prefix and the remainder. -/
def splitDigits : List Char → List Char × List Char
  | [] => ([], [])
  | c :: rest =>
    if c.isDigit then
      ((c :: (splitDigits rest).1), (splitDigits rest).2)
    else ([], c :: rest)

/-- Integer part of a JSON number: `0` or a nonzero digit followed by digits. -/
def parseIntPart : List Char → Option (List Char × List Char)
  | [] => none
  | c :: rest =>
    if c == '0' then some (['0'], rest)
    else if c.isDigit then some (c :: (splitDigits rest).1, (splitDigits rest).2)
    else none

/-- Optional fractional part of a JSON number. -/
def parseFracPart : List Char → Option (List Char × List Char)
  | '.' :: rest =>
    if (splitDigits rest).1 = [] then none
    else some ('.' :: (splitDigits rest).1, (splitDigits rest).2)
  | cs => some ([], cs)

/-- Optional exponent part of a JSON number. -/
def parseExpPart : List Char → Option (List Char × List Char)
  | [] => some ([], [])
  | c :: rest =>
    if c == 'e' || c == 'E' then
      match rest with
      | '+' :: r1 =>
        if (splitDigits r1).1 = [] then none
        else some (c :: '+' :: (splitDigits r1).1, (splitDigits r1).2)
      | '-' :: r1 =>
        if (splitDigits r1).1 = [] then none
        else some (c :: '-' :: (splitDigits r1).1, (splitDigits r1).2)
      | r1 =>
        if (splitDigits r1).1 = [] then none
        else some (c :: (splitDigits r1).1, (splitDigits r1).2)
    else some ([], c :: rest)

/-- Parse a JSON number starting at the current position. -/
def parseNumber (cs : List Char) : Option (JValue × List Char) :=
  let signed : List Char × List Char :=
    match cs with
    | '-' :: r => (['-'], r)
    | _ => ([], cs)
  match parseIntPart signed.2 with
  | none => none
  | some (ip, r1) =>
    match parseFracPart r1 with
    | none => none
    | some (fp, r2) =>
      match parseExpPart r2 with
      | none => none
      | some (ep, r3) => some (.num (String.mk (signed.1 ++ ip ++ fp ++ ep)), r3)

mutual

/-- Parse one JSON value, skipping leading whitespace. -/
def parseValue : Nat → List Char → Option (JValue × List Char)
  | 0, _ => none
  | fuel+1, cs =>
    match skipWs cs with
    | [] => none
    | 'n' :: 'u' :: 'l' :: 'l' :: rest => some (.null, rest)
    | 't' :: 'r' :: 'u' :: 'e' :: rest => some (.bool true, rest)
    | 'f' :: 'a' :: 'l' :: 's' :: 'e' :: rest => some (.bool false, rest)
    | '"' :: rest =>
      (parseStringBody (fuel+1) rest).map (fun p => (.str (String.mk p.1), p.2))
    | '[' :: rest =>
      match skipWs rest with
      | ']' :: r => some (.arr [], r)
      | _ => (parseItems fuel rest).map (fun p => (.arr p.1, p.2))
    | '\x7b' :: rest =>
      match skipWs rest with
      | '\x7d' :: r => some (.obj [], r)
      | _ => (parseMembers fuel rest).map (fun p => (.obj p.1, p.2))
    | c :: rest =>
      if c == '-' || c.isDigit then parseNumber (c :: rest) else none

/-- Parse the comma-separated items of a JSON array up to the closing bracket. -/
def parseItems : Nat → List Char → Option (List JValue × List Char)
  | 0, _ => none
  | fuel+1, cs =>
    match parseValue fuel cs with
    | none => none
    | some (v, r1) =>
      match skipWs r1 with
      | ',' :: r2 => (parseItems fuel r2).map (fun p => (v :: p.1, p.2))
      | ']' :: r2 => some ([v], r2)
      | _ => none

/-- Parse the comma-separated members of a JSON object up to the closing brace. -/
def parseMembers : Nat → List Char → Option (List (String × JValue) × List Char)
  | 0, _ => none
  | fuel+1, cs =>
    match skipWs cs with
    | '"' :: r1 =>
      match parseStringBody (fuel+1) r1 with
      | none => none
      | some (k, r2) =>
        match skipWs r2 with
        | ':' :: r3 =>
          match parseValue fuel r3 with
          | none => none
          | some (v, r4) =>
            match skipWs r4 with
            | ',' :: r5 => (parseMembers fuel r5).map (fun p => ((String.mk k, v) :: p.1, p.2))
            | '\x7d' :: r5 => some ([(String.mk k, v)], r5)
            | _ => none
        | _ => none
    | _ => none

end

/-- Python `json.loads`: the whole string must be one JSON value surrounded
only by whitespace; any other input raises, modelled as `none`. -/
def json_loads (s : String) : Option JValue :=
  match parseValue (2 * s.length + 2) s.toList with
  | some (v, rest) => if (skipWs rest) = [] then some v else none
  | none => none

/-! ### extract_json_from_markdown -/

/-- Python `s.find(c)`: index of the first occurrence, `-1` if absent. -/
def pyFindAux (c : Char) : List Char → Nat → Int
  | [], _ => -1
  | x :: xs, i => if x == c then (i : Int) else pyFindAux c xs (i + 1)

/-- Python `s.find(c)`. -/
def pyFind (s : String) (c : Char) : Int := pyFindAux c s.toList 0

/-- Python `s.rfind(c)`: index of the last occurrence, `-1` if absent;
`acc` carries the last index seen so far. -/
def pyRFindAux (c : Char) : List Char → Nat → Int → Int
  | [], _, acc => acc
  | x :: xs, i, acc => pyRFindAux c xs (i + 1) (if x == c then (i : Int) else acc)

/-- Python `s.rfind(c)`. -/
def pyRFind (s : String) (c : Char) : Int := pyRFindAux c s.toList 0 (-1)

/-- Python slice `s[start:stop]` for nonnegative bounds. -/
def pySlice (s : String) (start stop : Nat) : String :=
  String.mk ((s.toList.drop start).take (stop - start))

/-- Embedding of `GitCommitAPI.extract_json_from_markdown` (source lines
24-35): slice from the first opening brace to one past the last closing
brace, feed the slice to `json.loads`; the surrounding `try` turns any
parse exception into `None`, so the function is total and never raises. -/
def extract_json_from_markdown (content : String) : Option JValue :=
  let json_start := pyFind content '\x7b'
  let json_end := pyRFind content '\x7d' + 1
  if json_start ≠ -1 ∧ json_end ≠ -1 then
    json_loads (pySlice content json_start.toNat json_end.toNat)
  else none

/-- Modelled from the claim's words: scan the content for the first position
at which a balanced `\x7b...\x7d` JSON object parses, and return that parsed
object. -/
def firstBalancedJson (fuel : Nat) : List Char → Option JValue
  | [] => none
  | c :: rest =>
    if c == '\x7b' then
      match parseValue fuel (c :: rest) with
      | some (v, _) => some v
      | none => firstBalancedJson fuel rest
    else firstBalancedJson fuel rest

/-- Claim-level extractor: the parsed first balanced JSON object of the content. -/
def extract_json_claim (content : String) : Option JValue :=
  firstBalancedJson (2 * content.length + 2) content.toList

/-- C5 counterexample: on a response containing two JSON objects separated by
prose, the code slices from the first opening to the last closing brace, the
slice fails to parse, and the extractor returns `none` - whereas the claim's
"first balanced JSON object" reading would return the first object. -/
theorem extract_json_counterexample :
    extract_json_from_markdown "\x7b\"a\": 1\x7d and \x7b\"b\": 2\x7d" = none
    ∧ extract_json_claim "\x7b\"a\": 1\x7d and \x7b\"b\": 2\x7d"
        = some (.obj [("a", .num "1")]) := by
  constructor <;> rfl

/-- Membership characterisation of `pyFindAux`. -/
lemma pyFindAux_eq_neg_one (c : Char) (l : List Char) (i : Nat) :
    pyFindAux c l i = -1 ↔ c ∉ l := by
  induction l generalizing i with
  | nil => simp [pyFindAux]
  | cons x xs ih =>
    by_cases hx : x == c
    · have hxc : x = c := by simpa using hx
      simp [pyFindAux, hx, hxc]
    · have hxc : ¬ x = c := by simpa using hx
      simp [pyFindAux, hx, ih, hxc]
      tauto

/-- If the character occurs, `pyFindAux` returns at least the start index. -/
lemma pyFindAux_ge (c : Char) (l : List Char) (i : Nat) (h : c ∈ l) :
    pyFindAux c l i ≥ (i : Int) := by
  induction l generalizing i with
  | nil => simp at h
  | cons x xs ih =>
    by_cases hx : x == c
    · simp [pyFindAux, hx]
    · have hxc : ¬ x = c := by simpa using hx
      have hmem : c ∈ xs := by
        rcases List.mem_cons.1 h with h' | h'
        · exact absurd h'.symm hxc
        · exact h'
      have := ih (i + 1) hmem
      simp only [pyFindAux, hx, if_false]
      omega

/-- `pyRFindAux` keeps a lower bound of `-1`. -/
lemma pyRFindAux_ge_neg_one (c : Char) (l : List Char) (i : Nat) (acc : Int)
    (h : acc ≥ -1) : pyRFindAux c l i acc ≥ -1 := by
  induction l generalizing i acc with
  | nil => simpa [pyRFindAux] using h
  | cons x xs ih =>
    simp only [pyRFindAux]
    apply ih
    by_cases hx : x == c <;> simp [hx] <;> omega

/-- If the accumulator is nonnegative, `pyRFindAux` stays nonnegative. -/
lemma pyRFindAux_ge_zero (c : Char) (l : List Char) (i : Nat) (acc : Int)
    (h : acc ≥ 0) : pyRFindAux c l i acc ≥ 0 := by
  induction l generalizing i acc with
  | nil => simpa [pyRFindAux] using h
  | cons x xs ih =>
    simp only [pyRFindAux]
    apply ih
    by_cases hx : x == c <;> simp [hx] <;> omega

/-- If the character is absent, `pyRFindAux` returns the accumulator. -/
lemma pyRFindAux_not_mem (c : Char) (l : List Char) (i : Nat) (acc : Int)
    (h : c ∉ l) : pyRFindAux c l i acc = acc := by
  induction l generalizing i acc with
  | nil => rfl
  | cons x xs ih =>
    have hxc : ¬ (x == c) = true := by
      simp only [beq_iff_eq]
      intro he
      exact h (he ▸ List.mem_cons_self x xs)
    have hxs : c ∉ xs := fun hm => h (List.mem_cons_of_mem x hm)
    simp [pyRFindAux, hxc, ih _ _ hxs]

/-- If the character occurs, `pyRFindAux` returns a nonnegative index. -/
lemma pyRFindAux_mem_ge_zero (c : Char) (l : List Char) (i : Nat) (acc : Int)
    (h : c ∈ l) : pyRFindAux c l i acc ≥ 0 := by
  induction l generalizing i acc with
  | nil => simp at h
  | cons x xs ih =>
    by_cases hx : x == c
    · simp only [pyRFindAux, hx, if_pos]
      by_cases hm : c ∈ xs
      · exact ih _ _ hm
      · rw [pyRFindAux_not_mem c xs _ _ hm]
        omega
    · have hxc : ¬ x = c := by simpa using hx
      have hmem : c ∈ xs := by
        rcases List.mem_cons.1 h with h' | h'
        · exact absurd h'.symm hxc
        · exact h'
      simp only [pyRFindAux, hx, if_false]
      exact ih _ _ hmem

/-- Amended specification of the extractor: when the content contains both an
opening and a closing brace, parse the substring from the first opening brace
to the last closing brace (inclusive) as JSON; otherwise, or on parse
failure, the result is `none`. -/
def extract_json_amended_spec (content : String) : Option JValue :=
  if '\x7b' ∈ content.toList ∧ '\x7d' ∈ content.toList then
    json_loads (pySlice content (pyFind content '\x7b').toNat
      ((pyRFind content '\x7d') + 1).toNat)
  else none

/-- The empty slice: a stop bound of zero yields the empty string. -/
lemma pySlice_zero (s : String) (a : Nat) : pySlice s a 0 = "" := by
  show String.mk _ = ""
  rw [Nat.zero_sub, List.take_zero]

/-- C5 (amended): `extract_json_from_markdown` returns the value obtained by
parsing the substring of the content from the first opening brace to the last
closing brace, and `none` when either brace is absent or that parse fails;
being a total function, it never raises. -/
theorem extract_json_matches_slice_semantics (content : String) :
    extract_json_from_markdown content = extract_json_amended_spec content := by
  obtain ⟨l⟩ := content
  have hlist : String.toList ⟨l⟩ = l := rfl
  unfold extract_json_from_markdown extract_json_amended_spec
  rw [hlist]
  by_cases h1 : '\x7b' ∈ l
  · by_cases h2 : '\x7d' ∈ l
    · have hf : pyFind ⟨l⟩ '\x7b' ≠ -1 := by
        have := pyFindAux_ge '\x7b' l 0 (hlist ▸ h1)
        unfold pyFind
        rw [hlist]
        omega
      have hr : pyRFind ⟨l⟩ '\x7d' + 1 ≠ -1 := by
        have := pyRFindAux_mem_ge_zero '\x7d' l 0 (-1) h2
        unfold pyRFind
        rw [hlist]
        omega
      rw [if_pos ⟨hf, hr⟩, if_pos ⟨h1, h2⟩]
    · have hr0 : pyRFind ⟨l⟩ '\x7d' = -1 := by
        unfold pyRFind
        rw [hlist]
        exact pyRFindAux_not_mem _ _ _ _ h2
      have hf : pyFind ⟨l⟩ '\x7b' ≠ -1 := by
        have := pyFindAux_ge '\x7b' l 0 h1
        unfold pyFind
        rw [hlist]
        omega
      rw [if_pos ⟨hf, by rw [hr0]; omega⟩,
        if_neg (by intro hc; exact h2 hc.2)]
      rw [hr0]
      show json_loads (pySlice ⟨l⟩ _ (Int.toNat 0)) = none
      rw [show Int.toNat 0 = 0 from rfl, pySlice_zero]
      rfl
  · have hf0 : pyFind ⟨l⟩ '\x7b' = -1 := by
      unfold pyFind
      rw [hlist]
      exact (pyFindAux_eq_neg_one _ _ _).2 h1
    rw [if_neg (by intro hc; exact hc.1 hf0),
      if_neg (by intro hc; exact h1 hc.1)]

/-! ### Git state and observable effects

The repository is modelled by the sets of paths with pending changes:
`dirty` (tracked, modified, unstaged), `staged` (changes in the index),
`untracked` (new files), plus the list of commits created during the run,
each recorded with its message and the set of paths whose staged changes
it contains. `git add FILES` moves the pending changes of `FILES` into
the index; a bare `git commit -m MSG` commits the entire index (this is
what `subprocess.run(['git', 'commit', '-m', ...])` does) and fails when
the index is clean. -/

/-- Model git repository state. -/
structure GitState where
  dirty : List String
  staged : List String
  untracked : List String
  commits : List (String × List String)
deriving DecidableEq

/-- Effect of `git add files`: pending changes among `files` move to the index. -/
def gitAdd (files : List String) (st : GitState) : GitState :=
  { st with
    dirty := st.dirty.filter (fun f => decide (f ∉ files)),
    untracked := st.untracked.filter (fun f => decide (f ∉ files)),
    staged := st.staged ++ st.dirty.filter (fun f => decide (f ∈ files))
      ++ st.untracked.filter (fun f => decide (f ∈ files)) }

/-- `git diff --name-only` plus `git diff --cached --name-only`:
the union of working-tree-modified and staged paths. -/
def changedOf (st : GitState) : List String :=
  st.dirty ++ st.staged.filter (fun f => decide (f ∉ st.dirty))

/-- Observable events of one run: console output, console prompts,
git invocations and the remote analysis call. -/
inductive Effect where
  | checkRepoPath
  | printInvalidRepo
  | configError
  | printNoChanges
  | gitAddEff (files : List String)
  | gitCommitEff (msg : String) (files : List String)
  | printCommitError
  | procCat (category : String) (files : List String)
  | getDiff (files : List String)
  | analyze (category : String)
  | printSkipNoDiff (category : String)
  | printSkipFailed (category : String)
  | manualSelect (prompt : String) (choices : List String)
  | askTitle
  | askDetails
  | printProposed (msg : String)
  | askCommitConfirm (category : String)
  | askPushConfirm
  | pushEff
  | printPushResult (ok : Bool)
deriving DecidableEq

/-! ### The analysis record and per-category oracle environment -/

/-- The structured analysis parsed from the service response, with the
fields the script reads via `analysis.get(...)` (schema of source lines
69-76). -/
structure Analysis where
  cpu : String
  machine : String
  type : String
  title : String
  details : List String
deriving DecidableEq

/-- Oracle inputs consumed while processing one category: the diff text
the repository would produce for the bucket, the analysis outcome of the
service call (`none` models a failed request or unparsable output), and
the console answers used if prompted. -/
structure CategoryEnv where
  diff : String
  analysis : Option Analysis
  manualCpu : String
  manualMachine : String
  manualType : String
  titleInput : String
  detailInput : String
  confirm : String
deriving DecidableEq

/-- `self.valid_cpus` (source line 20). -/
def valid_cpus : List String := ["imx8mm", "imx8mp", "imx93"]

/-- `self.valid_machines` (source line 21). -/
def valid_machines : List String := ["ROM-5721", "ROM-5722", "ROM-2820"]

/-- `self.valid_types` (source line 22). -/
def valid_types : List String := ["dts", "drivers", "config", "kconfig", "script", "patch"]

/-! ### process_category (source lines 205-231) -/

/-- A field value the script treats as undetermined: falsy (empty) or the
literal sentinel `unknown` (source lines 217-219). -/
def undeterminedField (v : String) : Prop := v = "" ∨ v = "unknown"

instance (v : String) : Decidable (undeterminedField v) := by
  unfold undeterminedField
  infer_instance

/-- Value used for a cpu/machine/type slot: the analysis value when it is
determined, otherwise the manual selection. -/
def resolveField (v manual : String) : String :=
  if undeterminedField v then manual else v

/-- Console effects of resolving one cpu/machine/type slot. -/
def resolveTrace (v : String) (prompt : String) (choices : List String) : List Effect :=
  if undeterminedField v then [Effect.manualSelect prompt choices] else []

/-- Resolved cpu (source line 217). -/
def resolvedCpu (env : CategoryEnv) (a : Analysis) : String :=
  resolveField a.cpu env.manualCpu

/-- Resolved machine (source line 218). -/
def resolvedMachine (env : CategoryEnv) (a : Analysis) : String :=
  resolveField a.machine env.manualMachine

/-- Resolved type (source line 219). -/
def resolvedType (env : CategoryEnv) (a : Analysis) : String :=
  resolveField a.type env.manualType

/-- Resolved title: the stripped analysis title, or the stripped console
input when the former is empty (source line 220). -/
def resolvedTitle (env : CategoryEnv) (a : Analysis) : String :=
  if pyStrip a.title = "" then pyStrip env.titleInput else pyStrip a.title

/-- Parsing of the comma-separated manual details line (source line 224). -/
def parsedDetails (s : String) : List String :=
  ((pySplitComma s).map pyStrip).filter (fun d => decide (¬ d = ""))

/-- Resolved details: the analysis list, or the parsed console line when the
analysis list is empty (source lines 221-224). -/
def resolvedDetails (env : CategoryEnv) (a : Analysis) : List String :=
  if a.details = [] then parsedDetails env.detailInput else a.details

/-- Commit-message assembly (source line 225). -/
def assemble_message (cpu machine ty title : String) (details : List String) : String :=
  "[" ++ cpu ++ "][" ++ machine ++ "][" ++ ty ++ "] " ++ title ++ "\n\n" ++ pyJoinNl details

/-- The proposed commit message of one category. -/
def proposedMessage (env : CategoryEnv) (a : Analysis) : String :=
  assemble_message (resolvedCpu env a) (resolvedMachine env a) (resolvedType env a)
    (resolvedTitle env a) (resolvedDetails env a)

/-- Console effects of the interactive resolution phase, in prompt order. -/
def resolutionTrace (env : CategoryEnv) (a : Analysis) : List Effect :=
  resolveTrace a.cpu "Enter CPU type (or choose):" valid_cpus
  ++ resolveTrace a.machine "Enter machine type (or choose):" valid_machines
  ++ resolveTrace a.type "Enter change type (or choose):" valid_types
  ++ (if pyStrip a.title = "" then [Effect.askTitle] else [])
  ++ (if a.details = [] then [Effect.askDetails] else [])

/-- Embedding of `GitCommitAPI.execute_commit` (source lines 178-193):
return immediately on an empty file list, otherwise `git add` the files
and create one commit from the whole index; an empty index makes the
commit command fail, which is caught and reported. -/
def execute_commit (st : GitState) (files : List String) (msg : String) :
    List Effect × GitState :=
  if files = [] then ([], st)
  else
    if (gitAdd files st).staged = [] then
      ([Effect.gitAddEff files, Effect.printCommitError], gitAdd files st)
    else
      ([Effect.gitAddEff files, Effect.gitCommitEff msg (gitAdd files st).staged],
       { dirty := (gitAdd files st).dirty,
         staged := [],
         untracked := (gitAdd files st).untracked,
         commits := (gitAdd files st).commits ++ [(msg, (gitAdd files st).staged)] })

/-- Events of one category up to and including the confirmation prompt:
the diff extraction, the service call, the interactive resolution prompts,
the display of the proposed message and the confirmation question
(source lines 208-230). -/
def categoryPreTrace (env : CategoryEnv) (files : List String) (category : String)
    (a : Analysis) : List Effect :=
  Effect.getDiff files :: Effect.analyze category ::
    (resolutionTrace env a
      ++ [Effect.printProposed (proposedMessage env a), Effect.askCommitConfirm category])

/-- Continuation of `process_category` after a non-blank diff, dispatching on
the analysis outcome (source lines 212-231). -/
def process_with_analysis (env : CategoryEnv) (files : List String) (category : String)
    (st : GitState) : Option Analysis → List Effect × GitState
  | none =>
    ([Effect.getDiff files, Effect.analyze category, Effect.printSkipFailed category], st)
  | some a =>
    if pyLower env.confirm = "y" then
      (categoryPreTrace env files category a
        ++ (execute_commit st files (proposedMessage env a)).1,
       (execute_commit st files (proposedMessage env a)).2)
    else (categoryPreTrace env files category a, st)

/-- Embedding of `process_category` (source lines 205-231): skip on an empty
bucket, blank diff or failed analysis; otherwise resolve the fields, assemble
and display the message, ask for confirmation, and commit only on `y`. -/
def process_category (env : CategoryEnv) (files : List String) (category : String)
    (st : GitState) : List Effect × GitState :=
  if files = [] then ([], st)
  else if pyStrip env.diff = "" then
    ([Effect.getDiff files, Effect.printSkipNoDiff category], st)
  else process_with_analysis env files category st env.analysis


/-! ### Trace classification helpers -/

/-- Events that stage files or create commits. -/
def isStageOrCommit : Effect → Bool
  | .gitAddEff _ => true
  | .gitCommitEff _ _ => true
  | _ => false

/-- The push event. -/
def isPushEvent : Effect → Bool
  | .pushEff => true
  | _ => false

/-- Category-invocation markers. -/
def isProcCatEvent : Effect → Bool
  | .procCat _ _ => true
  | _ => false

/-- The category and bucket of an invocation marker. -/
def procCatData : Effect → Option (String × List String)
  | .procCat c fs => some (c, fs)
  | _ => none

/-- The category invocations recorded in a trace, in order. -/
def procCats (l : List Effect) : List (String × List String) := l.filterMap procCatData

/-- A conditional singleton satisfies `all p` when its element does. -/
lemma all_ite_singleton {α : Type} {x : α} {c : Prop} [Decidable c] (p : α → Bool)
    (h : p x = true) : (if c then [x] else []).all p = true := by
  split <;> simp [h]

/-- Nothing in a list satisfying `all p` can violate `p`. -/
lemma not_mem_of_all_not {α : Type} {e : α} {l : List α} (p : α → Bool)
    (hall : l.all p = true) (he : p e = false) : e ∉ l := by
  intro hm
  have := List.all_eq_true.1 hall e hm
  rw [he] at this
  exact Bool.noConfusion this

/-- All resolution-phase events are console prompts. -/
lemma resolutionTrace_all (env : CategoryEnv) (a : Analysis) (p : Effect → Bool)
    (hms : ∀ pr ch, p (Effect.manualSelect pr ch) = true)
    (ht : p Effect.askTitle = true) (hd : p Effect.askDetails = true) :
    (resolutionTrace env a).all p = true := by
  unfold resolutionTrace resolveTrace
  simp only [List.all_append, Bool.and_eq_true]
  exact ⟨⟨⟨⟨all_ite_singleton _ (hms _ _), all_ite_singleton _ (hms _ _)⟩,
    all_ite_singleton _ (hms _ _)⟩, all_ite_singleton _ ht⟩, all_ite_singleton _ hd⟩

/-- All `execute_commit` events are stages, commits, or error reports. -/
lemma execute_commit_all (st : GitState) (files : List String) (msg : String)
    (p : Effect → Bool)
    (ha : p (Effect.gitAddEff files) = true) (he : p Effect.printCommitError = true)
    (hc : ∀ m fs, p (Effect.gitCommitEff m fs) = true) :
    ((execute_commit st files msg).1).all p = true := by
  unfold execute_commit
  split
  · rfl
  · split <;> simp [ha, he, hc]

/-- All events up to the confirmation prompt are diff extraction, the service
call, or console interaction. -/
lemma categoryPreTrace_all (env : CategoryEnv) (files : List String) (category : String)
    (a : Analysis) (p : Effect → Bool)
    (h1 : p (Effect.getDiff files) = true) (h2 : p (Effect.analyze category) = true)
    (hms : ∀ pr ch, p (Effect.manualSelect pr ch) = true)
    (ht : p Effect.askTitle = true) (hd : p Effect.askDetails = true)
    (hp : ∀ m, p (Effect.printProposed m) = true)
    (hcc : p (Effect.askCommitConfirm category) = true) :
    (categoryPreTrace env files category a).all p = true := by
  unfold categoryPreTrace
  simp only [List.all_cons, List.all_append, Bool.and_eq_true]
  exact ⟨h1, h2, resolutionTrace_all env a p hms ht hd, by simp [hp _, hcc]⟩

/-- All `process_category` events are diff extraction, the service call,
console interaction, or commit activity. -/
lemma process_category_all (env : CategoryEnv) (files : List String) (category : String)
    (st : GitState) (p : Effect → Bool)
    (h1 : p (Effect.getDiff files) = true) (h2 : p (Effect.analyze category) = true)
    (h3 : p (Effect.printSkipNoDiff category) = true)
    (h4 : p (Effect.printSkipFailed category) = true)
    (hms : ∀ pr ch, p (Effect.manualSelect pr ch) = true)
    (ht : p Effect.askTitle = true) (hd : p Effect.askDetails = true)
    (hp : ∀ m, p (Effect.printProposed m) = true)
    (hcc : p (Effect.askCommitConfirm category) = true)
    (ha : ∀ fs, p (Effect.gitAddEff fs) = true) (he : p Effect.printCommitError = true)
    (hc : ∀ m fs, p (Effect.gitCommitEff m fs) = true) :
    ((process_category env files category st).1).all p = true := by
  unfold process_category
  split
  · rfl
  · split
    · simp [h1, h3]
    · cases henv : env.analysis with
      | none => simp [process_with_analysis, h1, h2, h4]
      | some a =>
        simp only [process_with_analysis]
        split
        · simp only [List.all_append, Bool.and_eq_true]
          exact ⟨categoryPreTrace_all env files category a p h1 h2 hms ht hd hp hcc,
            execute_commit_all st files _ p (ha _) he hc⟩
        · exact categoryPreTrace_all env files category a p h1 h2 hms ht hd hp hcc

/-! ### Per-category theorems -/

/-- C3: for a non-empty bucket whose diff is blank (empty or whitespace-only)
or whose analysis came back null (service non-success or unparsable output),
`process_category` performs no staging and no commit, leaves the repository
state unchanged, and emits a skip notice; the embedding is a total function,
so no error is raised. -/
theorem blank_or_failed_analysis_skips (env : CategoryEnv) (files : List String)
    (category : String) (st : GitState)
    (hf : files ≠ []) (h : pyStrip env.diff = "" ∨ env.analysis = none) :
    (process_category env files category st).2 = st
    ∧ (∀ fs, Effect.gitAddEff fs ∉ (process_category env files category st).1)
    ∧ (∀ m fs, Effect.gitCommitEff m fs ∉ (process_category env files category st).1)
    ∧ (Effect.printSkipNoDiff category ∈ (process_category env files category st).1
       ∨ Effect.printSkipFailed category ∈ (process_category env files category st).1) := by
  unfold process_category
  by_cases hd : pyStrip env.diff = ""
  · rw [if_neg hf, if_pos hd]
    refine ⟨by trivial, ?_, ?_, Or.inl (by simp)⟩ <;> intros <;> simp
  · rcases h with h | h
    · exact absurd h hd
    · rw [if_neg hf, if_neg hd, h]
      simp only [process_with_analysis]
      refine ⟨by trivial, ?_, ?_, Or.inr (by simp)⟩ <;> intros <;> simp

/-- Witness for C3: a concrete non-empty dts bucket with a whitespace-only
diff is skipped with no commit and no state change. -/
theorem blank_or_failed_analysis_skips_witness :
    (process_category
        { diff := " \n ", analysis := none, manualCpu := "", manualMachine := "",
          manualType := "", titleInput := "", detailInput := "", confirm := "y" }
        ["a.dts"] "dts" ⟨["a.dts"], [], [], []⟩).2 = ⟨["a.dts"], [], [], []⟩
    ∧ ∀ m fs, Effect.gitCommitEff m fs ∉ (process_category
        { diff := " \n ", analysis := none, manualCpu := "", manualMachine := "",
          manualType := "", titleInput := "", detailInput := "", confirm := "y" }
        ["a.dts"] "dts" ⟨["a.dts"], [], [], []⟩).1 := by
  have h := blank_or_failed_analysis_skips
    { diff := " \n ", analysis := none, manualCpu := "", manualMachine := "",
      manualType := "", titleInput := "", detailInput := "", confirm := "y" }
    ["a.dts"] "dts" ⟨["a.dts"], [], [], []⟩ (by simp) (Or.inl (by rfl))
  exact ⟨h.1, h.2.2.1⟩

/-- C8: whenever the confirmation answer, lower-cased, is not the affirmative
token `y`, `process_category` stages nothing, commits nothing and leaves the
repository state unchanged, so the run simply proceeds to the next category. -/
theorem decline_confirmation_no_commit (env : CategoryEnv) (files : List String)
    (category : String) (st : GitState) (h : ¬ pyLower env.confirm = "y") :
    (process_category env files category st).2 = st
    ∧ (∀ fs, Effect.gitAddEff fs ∉ (process_category env files category st).1)
    ∧ (∀ m fs, Effect.gitCommitEff m fs ∉ (process_category env files category st).1) := by
  unfold process_category
  by_cases hf : files = []
  · rw [if_pos hf]
    refine ⟨by trivial, ?_, ?_⟩ <;> intros <;> simp
  · rw [if_neg hf]
    by_cases hd : pyStrip env.diff = ""
    · rw [if_pos hd]
      refine ⟨by trivial, ?_, ?_⟩ <;> intros <;> simp
    · rw [if_neg hd]
      cases henv : env.analysis with
      | none =>
        simp only [process_with_analysis]
        refine ⟨by trivial, ?_, ?_⟩ <;> intros <;> simp
      | some a =>
        simp only [process_with_analysis]
        rw [if_neg h]
        have hall : (categoryPreTrace env files category a).all
            (fun e => !isStageOrCommit e) = true :=
          categoryPreTrace_all env files category a _ rfl rfl (fun _ _ => rfl) rfl rfl
            (fun _ => rfl) rfl
        exact ⟨rfl, fun fs => not_mem_of_all_not _ hall rfl,
          fun m fs => not_mem_of_all_not _ hall rfl⟩

/-- Witness for C8: declining with `N` on a fully resolved drivers message
produces no staging, no commit and no state change. -/
theorem decline_confirmation_no_commit_witness :
    (process_category
        { diff := "diff", analysis := some
            { cpu := "imx8mp", machine := "ROM-5721", type := "drivers",
              title := "Fix UART driver", details := ["Corrected baud rate"] },
          manualCpu := "", manualMachine := "", manualType := "",
          titleInput := "", detailInput := "", confirm := "N" }
        ["drivers/foo.c"] "drivers" ⟨["drivers/foo.c"], [], [], []⟩).2
      = ⟨["drivers/foo.c"], [], [], []⟩
    ∧ ∀ m fs, Effect.gitCommitEff m fs ∉ (process_category
        { diff := "diff", analysis := some
            { cpu := "imx8mp", machine := "ROM-5721", type := "drivers",
              title := "Fix UART driver", details := ["Corrected baud rate"] },
          manualCpu := "", manualMachine := "", manualType := "",
          titleInput := "", detailInput := "", confirm := "N" }
        ["drivers/foo.c"] "drivers" ⟨["drivers/foo.c"], [], [], []⟩).1 := by
  have h := decline_confirmation_no_commit
    { diff := "diff", analysis := some
        { cpu := "imx8mp", machine := "ROM-5721", type := "drivers",
          title := "Fix UART driver", details := ["Corrected baud rate"] },
      manualCpu := "", manualMachine := "", manualType := "",
      titleInput := "", detailInput := "", confirm := "N" }
    ["drivers/foo.c"] "drivers" ⟨["drivers/foo.c"], [], [], []⟩ (by decide)
  exact ⟨h.1, h.2.2⟩

/-- C2: for every resolved cpu, machine, type, title and detail list, the
message assembled and displayed by `process_category` is exactly
`[cpu][machine][type] title`, a blank line, then one detail per line. -/
theorem commit_message_assembly (env : CategoryEnv) (files : List String)
    (category : String) (st : GitState) (a : Analysis)
    (hf : files ≠ []) (hd : ¬ pyStrip env.diff = "") (ha : env.analysis = some a) :
    Effect.printProposed ("[" ++ resolvedCpu env a ++ "][" ++ resolvedMachine env a ++ "]["
        ++ resolvedType env a ++ "] " ++ resolvedTitle env a ++ "\n\n"
        ++ pyJoinNl (resolvedDetails env a))
      ∈ (process_category env files category st).1 := by
  have hmsg : proposedMessage env a
      = "[" ++ resolvedCpu env a ++ "][" ++ resolvedMachine env a ++ "]["
        ++ resolvedType env a ++ "] " ++ resolvedTitle env a ++ "\n\n"
        ++ pyJoinNl (resolvedDetails env a) := rfl
  unfold process_category
  rw [if_neg hf, if_neg hd, ha]
  simp only [process_with_analysis]
  rw [← hmsg]
  split
  · refine List.mem_append_left _ ?_
    unfold categoryPreTrace
    simp
  · unfold categoryPreTrace
    simp

/-- Witness for C2 at the spec's example: cpu `imx8mp`, machine `ROM-5721`,
type `drivers`, title `Fix UART driver`, details `Corrected baud rate` and
`Added error check` assemble to exactly the expected string. -/
theorem commit_message_assembly_witness :
    Effect.printProposed
        "[imx8mp][ROM-5721][drivers] Fix UART driver\n\nCorrected baud rate\nAdded error check"
      ∈ (process_category
          { diff := "diff text", analysis := some
              { cpu := "imx8mp", machine := "ROM-5721", type := "drivers",
                title := "Fix UART driver",
                details := ["Corrected baud rate", "Added error check"] },
            manualCpu := "", manualMachine := "", manualType := "",
            titleInput := "", detailInput := "", confirm := "y" }
          ["drivers/foo.c"] "drivers" ⟨["drivers/foo.c"], [], [], []⟩).1 :=
  commit_message_assembly
    { diff := "diff text", analysis := some
        { cpu := "imx8mp", machine := "ROM-5721", type := "drivers",
          title := "Fix UART driver",
          details := ["Corrected baud rate", "Added error check"] },
      manualCpu := "", manualMachine := "", manualType := "",
      titleInput := "", detailInput := "", confirm := "y" }
    ["drivers/foo.c"] "drivers" ⟨["drivers/foo.c"], [], [], []⟩ _
    (by decide) (by decide) rfl

/-- C6: with a successful analysis, each cpu/machine/type field that is empty
or exactly `unknown` is resolved by a manual-selection prompt emitted before
the message is displayed, and the value placed in the message is the manual
answer; a determined field passes through unchanged, so no `unknown`
placeholder coming from the analysis ever reaches the assembled message. -/
theorem undetermined_fields_use_manual_resolution (env : CategoryEnv)
    (files : List String) (category : String) (st : GitState) (a : Analysis)
    (hf : files ≠ []) (hd : ¬ pyStrip env.diff = "") (ha : env.analysis = some a) :
    (Effect.printProposed (proposedMessage env a) ∈ (process_category env files category st).1)
    ∧ (undeterminedField a.cpu →
        resolvedCpu env a = env.manualCpu
        ∧ Effect.manualSelect "Enter CPU type (or choose):" valid_cpus
            ∈ (process_category env files category st).1)
    ∧ (¬ undeterminedField a.cpu → resolvedCpu env a = a.cpu)
    ∧ (undeterminedField a.machine →
        resolvedMachine env a = env.manualMachine
        ∧ Effect.manualSelect "Enter machine type (or choose):" valid_machines
            ∈ (process_category env files category st).1)
    ∧ (¬ undeterminedField a.machine → resolvedMachine env a = a.machine)
    ∧ (undeterminedField a.type →
        resolvedType env a = env.manualType
        ∧ Effect.manualSelect "Enter change type (or choose):" valid_types
            ∈ (process_category env files category st).1)
    ∧ (¬ undeterminedField a.type → resolvedType env a = a.type) := by
  have hsub : ∀ e, e ∈ categoryPreTrace env files category a →
      e ∈ (process_category env files category st).1 := by
    intro e he
    unfold process_category
    rw [if_neg hf, if_neg hd, ha]
    simp only [process_with_analysis]
    split
    · exact List.mem_append_left _ he
    · exact he
  have hres_sub : ∀ e, e ∈ resolutionTrace env a →
      e ∈ categoryPreTrace env files category a := by
    intro e he
    unfold categoryPreTrace
    exact List.mem_cons_of_mem _ (List.mem_cons_of_mem _ (List.mem_append_left _ he))
  refine ⟨hsub _ (by unfold categoryPreTrace; simp), ?_, ?_, ?_, ?_, ?_, ?_⟩
  · intro h
    refine ⟨by unfold resolvedCpu resolveField; rw [if_pos h], ?_⟩
    refine hsub _ (hres_sub _ ?_)
    unfold resolutionTrace resolveTrace
    rw [if_pos h]
    simp
  · intro h
    unfold resolvedCpu resolveField
    rw [if_neg h]
  · intro h
    refine ⟨by unfold resolvedMachine resolveField; rw [if_pos h], ?_⟩
    refine hsub _ (hres_sub _ ?_)
    unfold resolutionTrace resolveTrace
    rw [if_pos h]
    simp
  · intro h
    unfold resolvedMachine resolveField
    rw [if_neg h]
  · intro h
    refine ⟨by unfold resolvedType resolveField; rw [if_pos h], ?_⟩
    refine hsub _ (hres_sub _ ?_)
    unfold resolutionTrace resolveTrace
    rw [if_pos h]
    simp
  · intro h
    unfold resolvedType resolveField
    rw [if_neg h]

/-- Witness for C6 at the spec's mocked-response test: the analysis returns
machine `unknown`, a manual machine-selection prompt is emitted, and the
resolved machine is the manual answer `ROM-5722`, not `unknown`. -/
theorem undetermined_fields_use_manual_resolution_witness :
    resolvedMachine
        { diff := "x", analysis := some
            { cpu := "imx8mm", machine := "unknown", type := "dts",
              title := "Add sensor node", details := ["Added node", "Fixed reg"] },
          manualCpu := "", manualMachine := "ROM-5722", manualType := "",
          titleInput := "", detailInput := "", confirm := "n" }
        { cpu := "imx8mm", machine := "unknown", type := "dts",
          title := "Add sensor node", details := ["Added node", "Fixed reg"] }
      = "ROM-5722"
    ∧ Effect.manualSelect "Enter machine type (or choose):" valid_machines
        ∈ (process_category
            { diff := "x", analysis := some
                { cpu := "imx8mm", machine := "unknown", type := "dts",
                  title := "Add sensor node", details := ["Added node", "Fixed reg"] },
              manualCpu := "", manualMachine := "ROM-5722", manualType := "",
              titleInput := "", detailInput := "", confirm := "n" }
            ["a.dts"] "dts" ⟨["a.dts"], [], [], []⟩).1 := by
  have h := undetermined_fields_use_manual_resolution
    { diff := "x", analysis := some
        { cpu := "imx8mm", machine := "unknown", type := "dts",
          title := "Add sensor node", details := ["Added node", "Fixed reg"] },
      manualCpu := "", manualMachine := "ROM-5722", manualType := "",
      titleInput := "", detailInput := "", confirm := "n" }
    ["a.dts"] "dts" ⟨["a.dts"], [], [], []⟩
    { cpu := "imx8mm", machine := "unknown", type := "dts",
      title := "Add sensor node", details := ["Added node", "Fixed reg"] }
    (by decide) (by decide) rfl
  have hm := h.2.2.2.1 (Or.inr rfl)
  exact ⟨hm.1, hm.2⟩

/-! ### main (source lines 233-296)

`main` is modelled as a function from a `World` - the command-line and
environment configuration, the initial repository state, the per-category
oracle inputs and the console answers - to the full effect trace and the
final repository state. Python truthiness of `os.getenv` results maps
missing variables to `none` and notes that the empty string is also falsy. -/

/-- Configuration and oracle inputs of one whole run. -/
structure World where
  repoValid : Bool
  apiKey : Option String
  endpoint : Option String
  git0 : GitState
  catEnv : String → CategoryEnv
  pushAnswer : String
  pushOk : Bool

/-- Python falsiness of an optional environment variable: missing or empty. -/
def pyFalsy : Option String → Bool
  | none => true
  | some s => decide (s = "")

/-- Untracked-file auto-staging (source lines 249-261): when untracked files
exist they are staged immediately and the changed-file list is refreshed. -/
def afterUntracked (w : World) : List Effect × GitState :=
  if w.git0.untracked = [] then ([], w.git0)
  else ([Effect.gitAddEff w.git0.untracked], gitAdd w.git0.untracked w.git0)

/-- Auto-staging of all remaining changed files (source lines 263-274). -/
def afterAutoAdd (w : World) : List Effect × GitState :=
  if changedOf (afterUntracked w).2 = [] then afterUntracked w
  else ((afterUntracked w).1 ++ [Effect.gitAddEff (changedOf (afterUntracked w).2)],
    gitAdd (changedOf (afterUntracked w).2) (afterUntracked w).2)

/-- The changed-file list used for classification (the value of
`changed_files` after both auto-staging steps, source line 280). -/
def finalChanged (w : World) : List String :=
  if changedOf (afterUntracked w).2 = [] then changedOf (afterUntracked w).2
  else changedOf (afterAutoAdd w).2

/-- One guarded `process_category` call site of `main`
(source lines 282-293): invoked only for a non-empty bucket, and the
invocation itself is recorded as a `procCat` marker. -/
def runCat (env : CategoryEnv) (files : List String) (category : String)
    (st : GitState) : List Effect × GitState :=
  if files = [] then ([], st)
  else (Effect.procCat category files :: (process_category env files category st).1,
    (process_category env files category st).2)

/-- Sequential composition of two effectful phases. -/
def seqRun (r : List Effect × GitState) (k : GitState → List Effect × GitState) :
    List Effect × GitState :=
  (r.1 ++ (k r.2).1, (k r.2).2)

/-- The six category phases of `main`, in source order (lines 282-293). -/
def runCats (w : World) (st : GitState) : List Effect × GitState :=
  seqRun (runCat (w.catEnv "dts") (classify_files (finalChanged w)).1 "dts" st) (fun g1 =>
  seqRun (runCat (w.catEnv "config") (classify_files (finalChanged w)).2.1 "config" g1) (fun g2 =>
  seqRun (runCat (w.catEnv "drivers") (classify_files (finalChanged w)).2.2.1 "drivers" g2) (fun g3 =>
  seqRun (runCat (w.catEnv "script") (classify_files (finalChanged w)).2.2.2.1 "script" g3) (fun g4 =>
  seqRun (runCat (w.catEnv "patch") (classify_files (finalChanged w)).2.2.2.2.1 "patch" g4) (fun g5 =>
  runCat (w.catEnv "other") (classify_files (finalChanged w)).2.2.2.2.2 "other" g5)))))

/-- The push phase (source lines 295-296 and 195-203): one confirmation
question; on an affirmative answer one push runs and its success or failure
is reported non-fatally. -/
def pushPhase (w : World) : List Effect :=
  Effect.askPushConfirm ::
    (if pyLower w.pushAnswer = "y" then [Effect.pushEff, Effect.printPushResult w.pushOk]
     else [])

/-- Embedding of `main` (source lines 233-296): validate the repository path,
construct the committer (checking the credentials), enumerate and auto-stage
changes, process the six category buckets in order, then ask once about
pushing. -/
def mainRun (w : World) : List Effect × GitState :=
  if ¬ w.repoValid then ([Effect.checkRepoPath, Effect.printInvalidRepo], w.git0)
  else if pyFalsy w.apiKey || pyFalsy w.endpoint then
    ([Effect.checkRepoPath, Effect.configError], w.git0)
  else if finalChanged w = [] then
    (Effect.checkRepoPath :: (afterAutoAdd w).1 ++ [Effect.printNoChanges], (afterAutoAdd w).2)
  else
    (Effect.checkRepoPath :: (afterAutoAdd w).1 ++ (runCats w (afterAutoAdd w).2).1
       ++ pushPhase w,
     (runCats w (afterAutoAdd w).2).2)

/-! ### Main-level lemmas -/

/-- All untracked-staging events are `git add` invocations. -/
lemma afterUntracked_all (w : World) (p : Effect → Bool)
    (ha : ∀ fs, p (Effect.gitAddEff fs) = true) : ((afterUntracked w).1).all p = true := by
  unfold afterUntracked
  split <;> simp [ha]

/-- All auto-staging events are `git add` invocations. -/
lemma afterAutoAdd_all (w : World) (p : Effect → Bool)
    (ha : ∀ fs, p (Effect.gitAddEff fs) = true) : ((afterAutoAdd w).1).all p = true := by
  unfold afterAutoAdd
  split
  · exact afterUntracked_all w p ha
  · simp [List.all_append, afterUntracked_all w p ha, ha]

/-- `all` distributes over sequential composition. -/
lemma seqRun_all {r : List Effect × GitState} {k : GitState → List Effect × GitState}
    (p : Effect → Bool) (h1 : r.1.all p = true) (h2 : ∀ st, ((k st).1).all p = true) :
    ((seqRun r k).1).all p = true := by
  unfold seqRun
  simp [List.all_append, h1, h2 _]

/-- `all` over one guarded category invocation. -/
lemma runCat_all (env : CategoryEnv) (files : List String) (category : String)
    (st : GitState) (p : Effect → Bool)
    (hpc : p (Effect.procCat category files) = true)
    (hrest : ((process_category env files category st).1).all p = true) :
    ((runCat env files category st).1).all p = true := by
  unfold runCat
  split
  · rfl
  · simp [hpc, hrest]

/-- `all` over the six category phases. -/
lemma runCats_all (w : World) (st : GitState) (p : Effect → Bool)
    (hpc : ∀ c fs, p (Effect.procCat c fs) = true)
    (hproc : ∀ env fs c st2, ((process_category env fs c st2).1).all p = true) :
    ((runCats w st).1).all p = true := by
  unfold runCats
  refine seqRun_all p (runCat_all _ _ _ _ p (hpc _ _) (hproc _ _ _ _)) (fun g1 => ?_)
  refine seqRun_all p (runCat_all _ _ _ _ p (hpc _ _) (hproc _ _ _ _)) (fun g2 => ?_)
  refine seqRun_all p (runCat_all _ _ _ _ p (hpc _ _) (hproc _ _ _ _)) (fun g3 => ?_)
  refine seqRun_all p (runCat_all _ _ _ _ p (hpc _ _) (hproc _ _ _ _)) (fun g4 => ?_)
  refine seqRun_all p (runCat_all _ _ _ _ p (hpc _ _) (hproc _ _ _ _)) (fun g5 => ?_)
  exact runCat_all _ _ _ _ p (hpc _ _) (hproc _ _ _ _)

/-- The traces of `process_category` never push. -/
lemma process_category_no_push (env : CategoryEnv) (fs : List String) (c : String)
    (st : GitState) :
    ((process_category env fs c st).1).all (fun e => !isPushEvent e) = true :=
  process_category_all env fs c st _ rfl rfl rfl rfl (fun _ _ => rfl) rfl rfl
    (fun _ => rfl) rfl (fun _ => rfl) rfl (fun _ _ => rfl)

/-- The traces of `process_category` contain no invocation markers. -/
lemma process_category_no_proccat (env : CategoryEnv) (fs : List String) (c : String)
    (st : GitState) :
    ((process_category env fs c st).1).all (fun e => !isProcCatEvent e) = true :=
  process_category_all env fs c st _ rfl rfl rfl rfl (fun _ _ => rfl) rfl rfl
    (fun _ => rfl) rfl (fun _ => rfl) rfl (fun _ _ => rfl)

/-! ### C4: what one confirmed commit actually contains -/

/-- C4 failing run: a repository with a modified `a.dts` (dts bucket) and a
modified `foo.c` (drivers bucket); the user confirms only the dts commit.
`main` has already auto-staged both files, and `execute_commit` runs a bare
`git commit`, which commits the entire index - so the single commit created
for the dts bucket contains `foo.c` as well, contradicting the claim that
only the confirmed bucket's files are included. -/
theorem commit_includes_other_buckets :
    ((mainRun
        { repoValid := true, apiKey := some "k", endpoint := some "e",
          git0 := ⟨["a.dts", "foo.c"], [], [], []⟩,
          catEnv := fun c =>
            if c = "dts" then
              { diff := "d", analysis := some
                  { cpu := "imx8mm", machine := "ROM-5721", type := "dts",
                    title := "T", details := ["D"] },
                manualCpu := "", manualMachine := "", manualType := "",
                titleInput := "", detailInput := "", confirm := "y" }
            else
              { diff := "d", analysis := some
                  { cpu := "imx8mm", machine := "ROM-5721", type := "dts",
                    title := "T", details := ["D"] },
                manualCpu := "", manualMachine := "", manualType := "",
                titleInput := "", detailInput := "", confirm := "n" },
          pushAnswer := "n", pushOk := true }).2.commits.map Prod.snd)
      = [["a.dts", "foo.c"]]
    ∧ classify "a.dts" = Category.dts ∧ classify "foo.c" = Category.drivers := by
  refine ⟨?_, rfl, rfl⟩
  rfl

/-! ### C7: what happens before the credential check -/

/-- C7 counterexample: with both credentials missing but an invalid
repository path, the run prints the invalid-repository message and returns;
no configuration error is raised at all, and even on a valid path the
repository-path directory check precedes the credential check. -/
theorem config_check_not_at_startup :
    (mainRun
        { repoValid := false, apiKey := none, endpoint := none,
          git0 := ⟨[], [], [], []⟩,
          catEnv := fun _ =>
            { diff := "", analysis := none, manualCpu := "", manualMachine := "",
              manualType := "", titleInput := "", detailInput := "", confirm := "" },
          pushAnswer := "n", pushOk := true }).1
      = [Effect.checkRepoPath, Effect.printInvalidRepo]
    ∧ Effect.configError ∉ (mainRun
        { repoValid := false, apiKey := none, endpoint := none,
          git0 := ⟨[], [], [], []⟩,
          catEnv := fun _ =>
            { diff := "", analysis := none, manualCpu := "", manualMachine := "",
              manualType := "", titleInput := "", detailInput := "", confirm := "" },
          pushAnswer := "n", pushOk := true }).1 := by
  refine ⟨rfl, ?_⟩
  intro h
  rw [show (mainRun
        { repoValid := false, apiKey := none, endpoint := none,
          git0 := ⟨[], [], [], []⟩,
          catEnv := fun _ =>
            { diff := "", analysis := none, manualCpu := "", manualMachine := "",
              manualType := "", titleInput := "", detailInput := "", confirm := "" },
          pushAnswer := "n", pushOk := true }).1
      = [Effect.checkRepoPath, Effect.printInvalidRepo] from rfl] at h
  simp at h

/-- C7 (amended): on a valid repository path, a missing (or empty) API key or
endpoint makes the run raise the configuration error immediately after the
path check and before any git invocation or any side effect on the
repository: the trace is exactly the path check followed by the error, and
the repository state is unchanged. -/
theorem config_error_before_side_effects (w : World)
    (hrepo : w.repoValid = true)
    (hcred : pyFalsy w.apiKey = true ∨ pyFalsy w.endpoint = true) :
    (mainRun w).1 = [Effect.checkRepoPath, Effect.configError]
    ∧ (mainRun w).2 = w.git0 := by
  have hb : (pyFalsy w.apiKey || pyFalsy w.endpoint) = true := by
    rcases hcred with h | h <;> simp [h]
  unfold mainRun
  rw [if_neg (by simp [hrepo]), if_pos hb]
  exact ⟨rfl, rfl⟩

/-- Witness for the amended C7: missing API key with a set endpoint on a
valid repository raises the configuration error right after the path check. -/
theorem config_error_before_side_effects_witness :
    (mainRun
        { repoValid := true, apiKey := none, endpoint := some "https://e",
          git0 := ⟨["a.dts"], [], [], []⟩,
          catEnv := fun _ =>
            { diff := "", analysis := none, manualCpu := "", manualMachine := "",
              manualType := "", titleInput := "", detailInput := "", confirm := "" },
          pushAnswer := "n", pushOk := true }).1
      = [Effect.checkRepoPath, Effect.configError] :=
  (config_error_before_side_effects
    { repoValid := true, apiKey := none, endpoint := some "https://e",
      git0 := ⟨["a.dts"], [], [], []⟩,
      catEnv := fun _ =>
        { diff := "", analysis := none, manualCpu := "", manualMachine := "",
          manualType := "", titleInput := "", detailInput := "", confirm := "" },
      pushAnswer := "n", pushOk := true } rfl (Or.inl rfl)).1

/-! ### C9: the push phase -/

/-- Splitting a list at a unique element: if `x` does not occur in `A`, the
only way to write `A ++ [x, y]` as `l ++ x :: r` leaves `r = [y]`. -/
lemma split_after_unique {x y : Effect} {A : List Effect} {l r : List Effect}
    (hx : x ∉ A) (hxy : x ≠ y) (h : A ++ [x, y] = l ++ x :: r) : r = [y] := by
  induction A generalizing l with
  | nil =>
    cases l with
    | nil => exact ((by simpa using h : [y] = r)).symm
    | cons b l' =>
      simp only [List.nil_append, List.cons_append, List.cons.injEq] at h
      have hxr : x ∈ l' ++ x :: r := List.mem_append_right _ (List.mem_cons_self _ _)
      rw [← h.2] at hxr
      rcases List.mem_singleton.1 hxr with h'
      exact absurd h' hxy
  | cons a A' ih =>
    cases l with
    | nil =>
      simp only [List.cons_append, List.nil_append, List.cons.injEq] at h
      exact absurd h.1.symm (fun he => hx (he ▸ List.mem_cons_self _ _))
    | cons b l' =>
      simp only [List.cons_append, List.cons.injEq] at h
      exact ih (fun hm => hx (List.mem_cons_of_mem _ hm)) h.2

/-- The three push properties hold trivially for a trace without a push. -/
lemma push_claims_of_not_mem {w : World} {t : List Effect}
    (heq : (mainRun w).1 = t) (h : Effect.pushEff ∉ t) :
    List.count Effect.pushEff (mainRun w).1 ≤ 1
    ∧ (Effect.pushEff ∈ (mainRun w).1 → pyLower w.pushAnswer = "y")
    ∧ (∀ l r, (mainRun w).1 = l ++ Effect.pushEff :: r →
        r = [Effect.printPushResult w.pushOk] ∧ ∀ c fs, Effect.procCat c fs ∉ r) := by
  rw [heq]
  refine ⟨?_, fun hm => absurd hm h, fun l r hr => ?_⟩
  · rw [List.count_eq_zero.2 h]
    omega
  · exact absurd (hr ▸ List.mem_append_right l (List.mem_cons_self _ _)) h

/-- The part of the trace before the push question contains no push event. -/
lemma prePush_no_push (w : World) :
    Effect.pushEff ∉
      Effect.checkRepoPath :: (afterAutoAdd w).1
        ++ (runCats w (afterAutoAdd w).2).1 ++ [Effect.askPushConfirm] := by
  refine not_mem_of_all_not (fun e => !isPushEvent e) ?_ rfl
  simp only [List.cons_append, List.all_cons, List.all_append, Bool.and_eq_true]
  exact ⟨rfl, ⟨afterAutoAdd_all w (fun e => !isPushEvent e) (fun _ => rfl),
    runCats_all w _ (fun e => !isPushEvent e) (fun _ _ => rfl) process_category_no_push⟩,
    rfl, rfl⟩

/-- C9: in every run the push is invoked at most once; a push event can only
occur when the single push confirmation was answered affirmatively; and any
push event happens after all category processing, followed only by the
non-fatal success/failure report. -/
theorem push_at_most_once_after_categories (w : World) :
    List.count Effect.pushEff (mainRun w).1 ≤ 1
    ∧ (Effect.pushEff ∈ (mainRun w).1 → pyLower w.pushAnswer = "y")
    ∧ (∀ l r, (mainRun w).1 = l ++ Effect.pushEff :: r →
        r = [Effect.printPushResult w.pushOk] ∧ ∀ c fs, Effect.procCat c fs ∉ r) := by
  by_cases hrepo : w.repoValid = true
  · by_cases hcred : (pyFalsy w.apiKey || pyFalsy w.endpoint) = true
    · have heq : (mainRun w).1 = [Effect.checkRepoPath, Effect.configError] := by
        unfold mainRun
        rw [if_neg (by simp [hrepo]), if_pos hcred]
      exact push_claims_of_not_mem heq (by simp)
    · by_cases hch : finalChanged w = []
      · have heq : (mainRun w).1
            = Effect.checkRepoPath :: (afterAutoAdd w).1 ++ [Effect.printNoChanges] := by
          unfold mainRun
          rw [if_neg (by simp [hrepo]), if_neg hcred, if_pos hch]
        refine push_claims_of_not_mem heq (not_mem_of_all_not (fun e => !isPushEvent e) ?_ rfl)
        simp only [List.cons_append, List.all_cons, List.all_append, Bool.and_eq_true]
        exact ⟨rfl, afterAutoAdd_all w (fun e => !isPushEvent e) (fun _ => rfl), rfl, rfl⟩
      · have heq : (mainRun w).1
            = Effect.checkRepoPath :: (afterAutoAdd w).1
              ++ (runCats w (afterAutoAdd w).2).1 ++ pushPhase w := by
          unfold mainRun
          rw [if_neg (by simp [hrepo]), if_neg hcred, if_neg hch]
        by_cases hy : pyLower w.pushAnswer = "y"
        · have heq2 : (mainRun w).1
              = (Effect.checkRepoPath :: (afterAutoAdd w).1
                  ++ (runCats w (afterAutoAdd w).2).1 ++ [Effect.askPushConfirm])
                ++ [Effect.pushEff, Effect.printPushResult w.pushOk] := by
            rw [heq]
            unfold pushPhase
            rw [if_pos hy]
            simp
          refine ⟨?_, fun _ => hy, fun l r hr => ?_⟩
          · rw [heq2, List.count_append, List.count_eq_zero.2 (prePush_no_push w)]
            simp [List.count_cons]
          · have hr2 := heq2.symm.trans hr
            have hrr := split_after_unique (prePush_no_push w)
              (fun he => Effect.noConfusion he) hr2
            refine ⟨hrr, fun c fs hmem => ?_⟩
            rw [hrr] at hmem
            rcases List.mem_singleton.1 hmem with h'
            exact Effect.noConfusion h'
        · refine push_claims_of_not_mem heq (not_mem_of_all_not (fun e => !isPushEvent e) ?_ rfl)
          simp only [List.cons_append, List.all_cons, List.all_append, Bool.and_eq_true]
          refine ⟨rfl, ⟨afterAutoAdd_all w (fun e => !isPushEvent e) (fun _ => rfl),
            runCats_all w _ (fun e => !isPushEvent e) (fun _ _ => rfl)
              process_category_no_push⟩, ?_⟩
          unfold pushPhase
          rw [if_neg hy]
          rfl
  · have heq : (mainRun w).1 = [Effect.checkRepoPath, Effect.printInvalidRepo] := by
      unfold mainRun
      rw [if_pos hrepo]
    exact push_claims_of_not_mem heq (by simp)

/-- Witness for C9: a full run with an affirmative push answer contains
exactly one push event. -/
theorem push_at_most_once_after_categories_witness :
    List.count Effect.pushEff (mainRun
        { repoValid := true, apiKey := some "k", endpoint := some "e",
          git0 := ⟨["a.dts"], [], [], []⟩,
          catEnv := fun _ =>
            { diff := "d", analysis := none, manualCpu := "", manualMachine := "",
              manualType := "", titleInput := "", detailInput := "", confirm := "n" },
          pushAnswer := "y", pushOk := true }).1 ≤ 1 :=
  (push_at_most_once_after_categories
    { repoValid := true, apiKey := some "k", endpoint := some "e",
      git0 := ⟨["a.dts"], [], [], []⟩,
      catEnv := fun _ =>
        { diff := "d", analysis := none, manualCpu := "", manualMachine := "",
          manualType := "", titleInput := "", detailInput := "", confirm := "n" },
      pushAnswer := "y", pushOk := true }).1

/-! ### C10: bucket processing order -/

/-- A trace without invocation markers records no category invocations. -/
lemma procCats_eq_nil {l : List Effect}
    (h : l.all (fun e => !isProcCatEvent e) = true) : procCats l = [] := by
  induction l with
  | nil => rfl
  | cons e rest ih =>
    simp only [List.all_cons, Bool.and_eq_true] at h
    have he : procCatData e = none := by
      cases e <;> first
        | rfl
        | (exfalso; revert h; simp [isProcCatEvent])
    simp only [procCats, List.filterMap_cons, he]
    exact ih h.2

/-- The invocations recorded by one guarded call site: exactly one for a
non-empty bucket, none for an empty bucket. -/
lemma procCats_runCat (env : CategoryEnv) (files : List String) (category : String)
    (st : GitState) :
    procCats (runCat env files category st).1
      = if files = [] then [] else [(category, files)] := by
  unfold runCat
  split
  · rfl
  · simp only [procCats, List.filterMap_cons]
    rw [show procCatData (Effect.procCat category files) = some (category, files) from rfl]
    have hnil : List.filterMap procCatData (process_category env files category st).1 = [] :=
      procCats_eq_nil (process_category_no_proccat env files category st)
    rw [hnil]

/-- Invocation markers distribute over sequential composition. -/
lemma procCats_seqRun (r : List Effect × GitState) (k : GitState → List Effect × GitState) :
    procCats (seqRun r k).1 = procCats r.1 ++ procCats (k r.2).1 := by
  unfold seqRun procCats
  exact List.filterMap_append _ _ _

/-- C10: in every run that passes the startup checks, the category buckets
are processed in the fixed order dts, config, drivers, script, patch, other,
with exactly one `process_category` invocation per non-empty bucket and none
for an empty bucket. -/
theorem buckets_processed_in_fixed_order (w : World)
    (hrepo : w.repoValid = true)
    (hkey : pyFalsy w.apiKey = false) (hend : pyFalsy w.endpoint = false) :
    procCats (mainRun w).1 =
      ([("dts", (classify_files (finalChanged w)).1),
        ("config", (classify_files (finalChanged w)).2.1),
        ("drivers", (classify_files (finalChanged w)).2.2.1),
        ("script", (classify_files (finalChanged w)).2.2.2.1),
        ("patch", (classify_files (finalChanged w)).2.2.2.2.1),
        ("other", (classify_files (finalChanged w)).2.2.2.2.2)].filter
          (fun pr => decide (¬ pr.2 = []))) := by
  unfold mainRun
  rw [if_neg (by simp [hrepo]), if_neg (by simp [hkey, hend])]
  by_cases hch : finalChanged w = []
  · rw [if_pos hch, hch]
    have h1 : procCats (Effect.checkRepoPath :: (afterAutoAdd w).1
        ++ [Effect.printNoChanges]) = [] := by
      apply procCats_eq_nil
      simp only [List.cons_append, List.all_cons, List.all_append, Bool.and_eq_true]
      exact ⟨rfl, afterAutoAdd_all w (fun e => !isProcCatEvent e) (fun _ => rfl), rfl, rfl⟩
    rw [h1]
    rfl
  · rw [if_neg hch]
    have hAdd : procCats (afterAutoAdd w).1 = [] :=
      procCats_eq_nil (afterAutoAdd_all w (fun e => !isProcCatEvent e) (fun _ => rfl))
    have hPush : procCats (pushPhase w) = [] := by
      apply procCats_eq_nil
      unfold pushPhase
      split <;> rfl
    have hCats : procCats (runCats w (afterAutoAdd w).2).1
        = (if (classify_files (finalChanged w)).1 = [] then []
            else [("dts", (classify_files (finalChanged w)).1)])
          ++ ((if (classify_files (finalChanged w)).2.1 = [] then []
            else [("config", (classify_files (finalChanged w)).2.1)])
          ++ ((if (classify_files (finalChanged w)).2.2.1 = [] then []
            else [("drivers", (classify_files (finalChanged w)).2.2.1)])
          ++ ((if (classify_files (finalChanged w)).2.2.2.1 = [] then []
            else [("script", (classify_files (finalChanged w)).2.2.2.1)])
          ++ ((if (classify_files (finalChanged w)).2.2.2.2.1 = [] then []
            else [("patch", (classify_files (finalChanged w)).2.2.2.2.1)])
          ++ (if (classify_files (finalChanged w)).2.2.2.2.2 = [] then []
            else [("other", (classify_files (finalChanged w)).2.2.2.2.2)]))))) := by
      unfold runCats
      rw [procCats_seqRun, procCats_runCat]
      rw [procCats_seqRun, procCats_runCat]
      rw [procCats_seqRun, procCats_runCat]
      rw [procCats_seqRun, procCats_runCat]
      rw [procCats_seqRun, procCats_runCat]
      rw [procCats_runCat]
    have hsplit : procCats (Effect.checkRepoPath :: (afterAutoAdd w).1
          ++ (runCats w (afterAutoAdd w).2).1 ++ pushPhase w)
        = procCats (afterAutoAdd w).1 ++ procCats (runCats w (afterAutoAdd w).2).1
          ++ procCats (pushPhase w) := by
      unfold procCats
      simp only [List.cons_append, List.filterMap_cons, List.filterMap_append]
      rfl
    rw [hsplit, hAdd, hPush, hCats]
    simp only [List.filter_cons, List.filter_nil, List.nil_append, List.append_nil]
    by_cases e1 : (classify_files (finalChanged w)).1 = [] <;>
      by_cases e2 : (classify_files (finalChanged w)).2.1 = [] <;>
      by_cases e3 : (classify_files (finalChanged w)).2.2.1 = [] <;>
      by_cases e4 : (classify_files (finalChanged w)).2.2.2.1 = [] <;>
      by_cases e5 : (classify_files (finalChanged w)).2.2.2.2.1 = [] <;>
      by_cases e6 : (classify_files (finalChanged w)).2.2.2.2.2 = [] <;>
      simp [e1, e2, e3, e4, e5, e6]

/-- Witness for C10: a run with one dts file and one drivers file processes
exactly the dts bucket and then the drivers bucket. -/
theorem buckets_processed_in_fixed_order_witness :
    procCats (mainRun
        { repoValid := true, apiKey := some "k", endpoint := some "e",
          git0 := ⟨["a.dts", "foo.c"], [], [], []⟩,
          catEnv := fun _ =>
            { diff := "d", analysis := none, manualCpu := "", manualMachine := "",
              manualType := "", titleInput := "", detailInput := "", confirm := "n" },
          pushAnswer := "n", pushOk := true }).1
      = [("dts", ["a.dts"]), ("drivers", ["foo.c"])] := by
  have h := buckets_processed_in_fixed_order
    { repoValid := true, apiKey := some "k", endpoint := some "e",
      git0 := ⟨["a.dts", "foo.c"], [], [], []⟩,
      catEnv := fun _ =>
        { diff := "d", analysis := none, manualCpu := "", manualMachine := "",
          manualType := "", titleInput := "", detailInput := "", confirm := "n" },
      pushAnswer := "n", pushOk := true } rfl rfl rfl
  rw [h]
  rfl
